import Mathlib

/-!
Verification development for the Sobol quasi-random sequence generator in
pygsa (src/pygsa/sampling/sobol_sequence.py, class SobolSample).

The Python class is shallowly embedded: machine integers become Nat (Python
ints are arbitrary precision, and all direction numbers stay below 2^scale),
the float coordinates become exact rationals (for scale <= 53 the division
Y[i] / 2^scale is exact in IEEE double precision), stateful methods become
state-passing functions on the record SobolSample, and the `raise`
statements become Except errors.  The while loop of
index_of_least_significant_zero_bit is embedded with an explicit fuel
counter; lszbGo is its total specialisation to non-negative inputs (fuel
value + 1 always suffices, as proved below), while lszbLoop keeps the exact
Python semantics on arbitrary integers, where exhausting every fuel bound
models divergence.
-/

/-- Fuel-indexed loop of index_of_least_significant_zero_bit on Nat:
while (value and 1) != 0: value >>= 1; index += 1.  Source lines 89-93. -/
def lszbGo : Nat → Nat → Nat → Nat
  | 0, _, index => index
  | fuel + 1, value, index =>
    if value % 2 = 1 then lszbGo fuel (value / 2) (index + 1) else index

/-- SobolSample.index_of_least_significant_zero_bit (source lines 74-93),
specialised to non-negative arguments.  Fuel value + 1 is always enough,
since the loop runs once per trailing one bit of value. -/
def index_of_least_significant_zero_bit (value : Nat) : Nat :=
  lszbGo (value + 1) value 1

/-- Exact embedding of the while loop of
index_of_least_significant_zero_bit on Python ints (which may be negative):
value & 1 is value mod 2 and value >>= 1 is flooring division by two.
Returns none when the given fuel is exhausted; divergence of the Python
loop is the statement that every fuel bound is exhausted. -/
def lszbLoop : Nat → Int → Nat → Option Nat
  | 0, _, _ => none
  | fuel + 1, value, index =>
    if value % 2 = 1 then lszbLoop fuel (Int.fdiv value 2) (index + 1)
    else some index

/-- Helper for ceilLog2: the least k (starting the search at the given k)
with n <= 2 ^ k, found within the given fuel. -/
def ceilLog2Go (n : Nat) : Nat → Nat → Nat
  | 0, k => k
  | fuel + 1, k => if n ≤ 2 ^ k then k else ceilLog2Go n fuel (k + 1)

/-- Ceiling of log2: L = int(math.ceil(math.log(n_samples) / math.log(2)))
from source line 59, i.e. the least L with n_samples <= 2 ^ L (for
n_samples >= 1).  Proven equal to Nat.clog 2 below. -/
def ceilLog2 (n : Nat) : Nat := ceilLog2Go n n 0

/-- The two construction-time errors of SobolSample.__init__: the ValueError
"not enough dimensions" (line 57) and "not enough bits" (line 62). -/
inductive SobolError where
  | InsufficientDimensions
  | InsufficientBits
deriving DecidableEq

/-- State of a SobolSample instance: the configuration fields, the cursor
current, the accumulator Y and the direction-number matrix V, stored as a
list of n_dimensions columns, each of length L + 1 (entry j of column i is
the Python V[j, i]). -/
structure SobolSample where
  n_samples : Nat
  n_dimensions : Nat
  scale : Nat
  L : Nat
  current : Nat
  Y : List Nat
  V : List (List Nat)
deriving DecidableEq

/-- Entry V[j, i] of the direction-number matrix (column-major storage). -/
def Vget (V : List (List Nat)) (j i : Nat) : Nat := (V.getD i []).getD j 0

/-- Column 0 of V: row 0 is zero and V[j, 0] = 1 << (scale - j) for
j = 1..L (source lines 107-108). -/
def Vcol0 (scale L : Nat) : List Nat :=
  (List.range (L + 1)).map (fun j => if j = 0 then 0 else 1 <<< (scale - j))

/-- Rows 0..top of a direction-number column built by the
primitive-polynomial recurrence of source lines 118-126: rows 1..s are the
seeds m[j] << (scale - j); row j > s is V[j-s] ^ (V[j-s] >> s), further
XORed, for each k = 1..s-1, with ((m[0] >> (s-1-k)) & 1) * V[j-k].  Each
row only reads strictly earlier rows of the same column. -/
def VcolRows (m : List Nat) (scale : Nat) : Nat → List Nat
  | 0 => [0]
  | j + 1 =>
    let prev := VcolRows m scale j
    let s := m.length - 1
    let v :=
      if j + 1 ≤ s then m.getD (j + 1) 0 <<< (scale - (j + 1))
      else
        let a := prev.getD (j + 1 - s) 0
        (List.range s).foldl
          (fun acc k =>
            if k = 0 then acc
            else acc ^^^ ((m.getD 0 0 >>> (s - 1 - k)) &&& 1) * prev.getD (j + 1 - k) 0)
          (a ^^^ (a >>> s))
    prev ++ [v]

/-- One column i + 1 of V for the table entry m = directions[i] with
s = len(m) - 1 (source lines 110-126): if L <= s all rows 1..L come
directly from the seeds, otherwise the recurrence fills rows s+1..L. -/
def sobolCol (m : List Nat) (scale L : Nat) : List Nat :=
  let s := m.length - 1
  if L ≤ s then
    (List.range (L + 1)).map
      (fun j => if j = 0 then 0 else m.getD j 0 <<< (scale - j))
  else VcolRows m scale L

/-- SobolSample.generate_V (source lines 95-128): column 0 is the van der
Corput column, column i + 1 is built from table entry i. -/
def generate_V (table : List (List Nat)) (n_dimensions scale L : Nat) :
    List (List Nat) :=
  Vcol0 scale L ::
    (List.range (n_dimensions - 1)).map (fun i => sobolCol (table.getD i []) scale L)

/-- SobolSample.__init__ (source lines 54-72): raises InsufficientDimensions
when n_dimensions > len(directions.data) + 1, then computes
L = ceil(log2(n_samples)) and raises InsufficientBits when L > scale;
otherwise the instance starts with current = 0, Y the zero vector and the
precomputed matrix V. -/
def mkSobol (table : List (List Nat)) (n_samples n_dimensions scale : Nat) :
    Except SobolError SobolSample :=
  if n_dimensions > table.length + 1 then .error .InsufficientDimensions
  else
    let L := ceilLog2 n_samples
    if L > scale then .error .InsufficientBits
    else .ok
      { n_samples := n_samples, n_dimensions := n_dimensions, scale := scale,
        L := L, current := 0, Y := List.replicate n_dimensions 0,
        V := generate_V table n_dimensions scale L }

/-- SobolSample.generate_sample (source lines 130-155) on states with
current >= 1 (the only states the advance protocol calls it from; current
is stored as a Nat, so current - 1 is the Python self.current - 1 there):
XOR row index_of_least_significant_zero_bit(current - 1) of V into Y,
emit Y / 2^scale and increment current. -/
def generate_sample (st : SobolSample) : List ℚ × SobolSample :=
  let idx := index_of_least_significant_zero_bit (st.current - 1)
  let Y2 := (List.range st.n_dimensions).map
    (fun i => st.Y.getD i 0 ^^^ Vget st.V idx i)
  (Y2.map (fun (y : Nat) => (y : ℚ) / 2 ^ st.scale),
    { st with Y := Y2, current := st.current + 1 })

/-- Fuel-indexed, exact embedding of SobolSample.generate_sample on every
state: the row index is computed by the Python loop on the Python int
self.current - 1, which is -1 on a fresh instance (current = 0); running
out of every fuel bound models the loop diverging. -/
def generate_sampleF (fuel : Nat) (st : SobolSample) :
    Option (List ℚ × SobolSample) :=
  match lszbLoop fuel ((st.current : Int) - 1) 1 with
  | none => none
  | some idx =>
    let Y2 := (List.range st.n_dimensions).map
      (fun i => st.Y.getD i 0 ^^^ Vget st.V idx i)
    some (Y2.map (fun (y : Nat) => (y : ℚ) / 2 ^ st.scale),
      { st with Y := Y2, current := st.current + 1 })

/-- SobolSample.__next__ (source lines 157-164): raise StopIteration (the
error branch) when current > n_samples - 1 on Python ints, return the
accumulator Y itself (still the zero vector) on the first call, otherwise
delegate to generate_sample. -/
def nextState (st : SobolSample) : Except Unit (List ℚ) × SobolSample :=
  if (st.current : Int) > (st.n_samples : Int) - 1 then (.error (), st)
  else if st.current = 0 then
    (.ok (st.Y.map (fun (y : Nat) => (y : ℚ))), { st with current := 1 })
  else
    let r := generate_sample st
    (.ok r.1, r.2)

/-- Outcomes of k successive __next__ calls, together with the final state. -/
def runNext : Nat → SobolSample → List (Except Unit (List ℚ)) × SobolSample
  | 0, st => ([], st)
  | k + 1, st =>
    let r := nextState st
    let rest := runNext k r.2
    (r.1 :: rest.1, rest.2)

/-- Entry i of the local accumulator X of SobolSample.generate_all_samples
after the loop iterations j' = 1..j: X starts at zero and iteration j' XORs
in row index_of_least_significant_zero_bit(j' - 1) of V (source lines
180-183). -/
def bulkXentry (V : List (List Nat)) : Nat → Nat → Nat
  | 0, _ => 0
  | j + 1, i =>
    bulkXentry V j i ^^^ Vget V (index_of_least_significant_zero_bit j) i

/-- Row j of the bulk sample matrix: the accumulator after j iterations,
normalised by 2^scale.  Row 0 is the all-zero row left by np.zeros. -/
def sobolRow (st : SobolSample) (j : Nat) : List ℚ :=
  (List.range st.n_dimensions).map
    (fun i => (bulkXentry st.V j i : ℚ) / 2 ^ st.scale)

/-- SobolSample.generate_all_samples (source lines 166-184): the full
n_samples x n_dimensions matrix.  The method reads n_samples, n_dimensions
and V from the state and assigns no attribute, so the state component of
the result is the input state itself. -/
def generate_all_samples (st : SobolSample) : List (List ℚ) × SobolSample :=
  ((List.range st.n_samples).map (sobolRow st), st)

/-- Modelled from the spec: the direction-number table (module
pygsa.sampling.directions, not among the sources) maps each dimension to a
polynomial coefficient word m[0] followed by the initial odd
direction-number seeds m[1..s]; as the direction numbers m[j] / 2^j lie in
(0, 1), every seed satisfies m[j] < 2^j. -/
def TableWF (table : List (List Nat)) : Prop :=
  ∀ m ∈ table, ∀ j, 1 ≤ j → m.getD j 0 < 2 ^ j

/-- The generator instance SobolSample(4, 1, scale=31) over an empty
direction-number table (dimension 0 needs no table entry); used as the
concrete instance in witnesses and counterexamples. -/
def sobolG4 : SobolSample :=
  { n_samples := 4, n_dimensions := 1, scale := 31, L := ceilLog2 4,
    current := 0, Y := List.replicate 1 0,
    V := generate_V [] 1 31 (ceilLog2 4) }

/-- The state of a generator after k successful __next__ calls from a fresh
instance: the cursor is k and the accumulator Y agrees with the bulk
producer's local accumulator X after k - 1 loop iterations (the first call
emits Y without touching it, every later call performs one XOR step). -/
def stAfter (g : SobolSample) (k : Nat) : SobolSample :=
  { g with
    current := k
    Y := (List.range g.n_dimensions).map (fun i => bulkXentry g.V (k - 1) i) }

instance {ε α : Type} [DecidableEq ε] [DecidableEq α] :
    DecidableEq (Except ε α) := fun a b =>
  match a, b with
  | .error e, .error f =>
    if h : e = f then isTrue (by rw [h])
    else isFalse (fun hh => h (Except.error.inj hh))
  | .ok x, .ok y =>
    if h : x = y then isTrue (by rw [h])
    else isFalse (fun hh => h (Except.ok.inj hh))
  | .error _, .ok _ => isFalse (fun hh => Except.noConfusion hh)
  | .ok _, .error _ => isFalse (fun hh => Except.noConfusion hh)

-- Basic facts about the loop embeddings.

theorem lszbGo_index_le : ∀ fuel value index, index ≤ lszbGo fuel value index := by
  intro fuel
  induction fuel with
  | zero => intro value index; simp [lszbGo]
  | succ fuel ih =>
    intro value index
    simp only [lszbGo]
    split
    · exact le_trans (Nat.le_succ index) (ih (value / 2) (index + 1))
    · exact le_refl index

theorem lszbGo_spec : ∀ fuel value index, value < 2 ^ fuel →
    (∀ i, i < lszbGo fuel value index - index → value.testBit i = true) ∧
    value.testBit (lszbGo fuel value index - index) = false := by
  intro fuel
  induction fuel with
  | zero =>
    intro value index h
    have hv : value = 0 := by simpa using h
    subst hv
    exact ⟨fun i hi => absurd hi (by simp [lszbGo]), by simp [lszbGo]⟩
  | succ fuel ih =>
    intro value index h
    by_cases hodd : value % 2 = 1
    · have hlt : value / 2 < 2 ^ fuel := by
        rw [pow_succ] at h; omega
      have hle := lszbGo_index_le fuel (value / 2) (index + 1)
      obtain ⟨ih1, ih2⟩ := ih (value / 2) (index + 1) hlt
      simp only [lszbGo, if_pos hodd]
      constructor
      · intro i hi
        cases i with
        | zero => simp [Nat.testBit_zero, hodd]
        | succ i' =>
          rw [Nat.testBit_succ]
          exact ih1 i' (by omega)
      · have hdiff : lszbGo fuel (value / 2) (index + 1) - index
            = (lszbGo fuel (value / 2) (index + 1) - (index + 1)) + 1 := by omega
        rw [hdiff, Nat.testBit_succ]
        exact ih2
    · simp only [lszbGo, if_neg hodd]
      constructor
      · intro i hi
        omega
      · rw [Nat.sub_self, Nat.testBit_zero]
        simp [hodd]

theorem zeroBitPos_unique (v a b : Nat)
    (ha1 : ∀ i, i < a → v.testBit i = true) (ha2 : v.testBit a = false)
    (hb1 : ∀ i, i < b → v.testBit i = true) (hb2 : v.testBit b = false) :
    a = b := by
  rcases Nat.lt_trichotomy a b with h | h | h
  · have := hb1 a h
    rw [this] at ha2
    exact Bool.noConfusion ha2
  · exact h
  · have := ha1 b h
    rw [this] at hb2
    exact Bool.noConfusion hb2

theorem lszbGo_fuel (f₁ f₂ value index : Nat) (h1 : value < 2 ^ f₁)
    (h2 : value < 2 ^ f₂) : lszbGo f₁ value index = lszbGo f₂ value index := by
  obtain ⟨a1, a2⟩ := lszbGo_spec f₁ value index h1
  obtain ⟨b1, b2⟩ := lszbGo_spec f₂ value index h2
  have hle1 := lszbGo_index_le f₁ value index
  have hle2 := lszbGo_index_le f₂ value index
  have := zeroBitPos_unique value _ _ a1 a2 b1 b2
  omega

theorem ceilLog2Go_le (n : Nat) : ∀ fuel k m, k ≤ m → n ≤ 2 ^ m →
    ceilLog2Go n fuel k ≤ m := by
  intro fuel
  induction fuel with
  | zero =>
    intro k m hk _
    simpa [ceilLog2Go] using hk
  | succ fuel ih =>
    intro k m hk hm
    by_cases hc : n ≤ 2 ^ k
    · simpa [ceilLog2Go, if_pos hc] using hk
    · simp only [ceilLog2Go, if_neg hc]
      have hkm : k + 1 ≤ m := by
        rcases Nat.eq_or_lt_of_le hk with rfl | h
        · exact absurd hm hc
        · omega
      exact ih (k + 1) m hkm hm

theorem ceilLog2Go_spec (n : Nat) : ∀ fuel k, n ≤ 2 ^ (k + fuel) →
    n ≤ 2 ^ ceilLog2Go n fuel k := by
  intro fuel
  induction fuel with
  | zero =>
    intro k h
    simpa [ceilLog2Go] using h
  | succ fuel ih =>
    intro k h
    by_cases hc : n ≤ 2 ^ k
    · simpa [ceilLog2Go, if_pos hc] using hc
    · simp only [ceilLog2Go, if_neg hc]
      exact ih (k + 1) (by rw [show k + 1 + fuel = k + (fuel + 1) from by omega]; exact h)

theorem ceilLog2_le_iff (n m : Nat) : ceilLog2 n ≤ m ↔ n ≤ 2 ^ m := by
  constructor
  · intro h
    have h1 : n ≤ 2 ^ ceilLog2 n :=
      ceilLog2Go_spec n n 0 (by simpa using Nat.le_of_lt (Nat.lt_two_pow n))
    exact le_trans h1 (Nat.pow_le_pow_right (by norm_num) h)
  · intro h
    exact ceilLog2Go_le n n 0 m (Nat.zero_le m) h

theorem ceilLog2_eq_clog (n : Nat) : ceilLog2 n = Nat.clog 2 n := by
  apply le_antisymm
  · exact (ceilLog2_le_iff n _).mpr
      ((Nat.le_pow_iff_clog_le (by norm_num)).mpr le_rfl)
  · exact (Nat.le_pow_iff_clog_le (by norm_num)).mp
      ((ceilLog2_le_iff n _).mp le_rfl)

theorem lszbLoop_neg_one : ∀ fuel index, lszbLoop fuel (-1) index = none := by
  intro fuel
  induction fuel with
  | zero => intro index; rfl
  | succ fuel ih =>
    intro index
    have h1 : (-1 : Int) % 2 = 1 := by decide
    have h2 : Int.fdiv (-1) 2 = -1 := by decide
    simp only [lszbLoop]
    rw [if_pos h1, h2]
    exact ih (index + 1)

theorem lszbLoop_nat : ∀ fuel (n index : Nat), n < 2 ^ fuel →
    lszbLoop (fuel + 1) (n : Int) index = some (lszbGo (fuel + 1) n index) := by
  intro fuel
  induction fuel with
  | zero =>
    intro n index h
    have hn : n = 0 := by simpa using h
    subst hn
    simp [lszbLoop, lszbGo]
  | succ fuel ih =>
    intro n index h
    by_cases hodd : n % 2 = 1
    · have hoddZ : (n : Int) % 2 = 1 := by omega
      have hfdiv : Int.fdiv (n : Int) 2 = ((n / 2 : Nat) : Int) :=
        (Int.ofNat_fdiv n 2).symm
      simp only [lszbLoop, lszbGo]
      rw [if_pos hoddZ, if_pos hodd, hfdiv]
      exact ih (n / 2) (index + 1) (by rw [pow_succ] at h; omega)
    · have hoddZ : ¬((n : Int) % 2 = 1) := by omega
      simp only [lszbLoop, lszbGo]
      rw [if_neg hoddZ, if_neg hodd]

theorem lszbLoop_total (v : Int) (hv : 0 ≤ v) (index : Nat) :
    ∃ fuel k, lszbLoop fuel v index = some k := by
  obtain ⟨n, rfl⟩ := Int.eq_ofNat_of_zero_le hv
  exact ⟨n + 1, lszbGo (n + 1) n index, lszbLoop_nat n n index (Nat.lt_two_pow n)⟩

theorem generate_sampleF_fresh (fuel : Nat) (st : SobolSample)
    (h : st.current = 0) : generate_sampleF fuel st = none := by
  unfold generate_sampleF
  rw [h, show ((0 : Nat) : Int) - 1 = -1 from by norm_num, lszbLoop_neg_one]

theorem generate_sampleF_agree (st : SobolSample) (h : 1 ≤ st.current) :
    generate_sampleF (st.current - 1 + 2) st = some (generate_sample st) := by
  have harg : (st.current : Int) - 1 = ((st.current - 1 : Nat) : Int) := by omega
  have hlt : st.current - 1 < 2 ^ (st.current - 1 + 1) :=
    lt_of_lt_of_le (Nat.lt_two_pow _)
      (Nat.pow_le_pow_right (by norm_num) (Nat.le_succ _))
  have hgo : lszbGo (st.current - 1 + 1 + 1) (st.current - 1) 1
      = index_of_least_significant_zero_bit (st.current - 1) := by
    unfold index_of_least_significant_zero_bit
    exact lszbGo_fuel _ _ _ _
      (lt_of_lt_of_le hlt (Nat.pow_le_pow_right (by norm_num) (Nat.le_succ _)))
      hlt
  unfold generate_sampleF
  rw [harg, lszbLoop_nat (st.current - 1 + 1) (st.current - 1) 1 hlt, hgo]
  rfl


-- List helper lemmas.

theorem rangeMap_getD {α : Type} (d i : Nat) (f : Nat → α) (a : α)
    (h : i < d) : ((List.range d).map f).getD i a = f i := by
  rw [List.getD_eq_getElem?_getD, List.getElem?_map, List.getElem?_range h]
  rfl

theorem rangeMap_const {α : Type} (d : Nat) (c : α) :
    (List.range d).map (fun _ => c) = List.replicate d c := by
  induction d with
  | zero => rfl
  | succ d ih =>
    rw [List.range_succ, List.map_append, ih, List.replicate_succ']
    rfl

-- State-machine lemmas for the sequential producer.

theorem nextState_exhausted (st : SobolSample)
    (h : (st.current : Int) > (st.n_samples : Int) - 1) :
    nextState st = (.error (), st) := by
  unfold nextState
  rw [if_pos h]

theorem runNext_exhausted (st : SobolSample)
    (h : (st.current : Int) > (st.n_samples : Int) - 1) :
    ∀ k, runNext k st = (List.replicate k (.error ()), st) := by
  intro k
  induction k with
  | zero => rfl
  | succ k ih =>
    simp only [runNext]
    rw [nextState_exhausted st h]
    simp [ih, List.replicate_succ]

theorem runNext_add (a : Nat) : ∀ (b : Nat) (st : SobolSample),
    runNext (a + b) st
      = ((runNext a st).1 ++ (runNext b (runNext a st).2).1,
          (runNext b (runNext a st).2).2) := by
  induction a with
  | zero => intro b st; simp [runNext]
  | succ a ih =>
    intro b st
    rw [show a + 1 + b = (a + b) + 1 from by omega]
    simp only [runNext]
    rw [ih b (nextState st).2]
    simp [runNext]

theorem stAfter_zero (g : SobolSample) (hc : g.current = 0)
    (hY : g.Y = List.replicate g.n_dimensions 0) : stAfter g 0 = g := by
  obtain ⟨ns, nd, sc, L, cur, Y, V⟩ := g
  simp only at hc hY
  subst hc
  simp only [stAfter, SobolSample.mk.injEq, true_and, and_true]
  rw [hY, ← rangeMap_const nd 0]
  exact List.map_congr_left (fun i _ => rfl)

theorem nextState_stAfter (g : SobolSample) (k : Nat)
    (hk : (k : Int) ≤ (g.n_samples : Int) - 1) :
    nextState (stAfter g k) = (.ok (sobolRow g k), stAfter g (k + 1)) := by
  obtain ⟨ns, nd, sc, L, cur, Y, V⟩ := g
  simp only at hk
  simp only [nextState, stAfter]
  rw [if_neg (by omega)]
  by_cases hk0 : k = 0
  · subst hk0
    rw [if_pos rfl]
    simp only [Prod.mk.injEq]
    constructor
    · rw [List.map_map]
      simp only [sobolRow]
      refine congrArg Except.ok (List.map_congr_left ?_)
      intro i _
      simp [bulkXentry, Function.comp]
    · trivial
  · rw [if_neg hk0]
    simp only [generate_sample]
    have hY2 : (List.range nd).map
          (fun i => ((List.range nd).map (fun i => bulkXentry V (k - 1) i)).getD i 0
            ^^^ Vget V (index_of_least_significant_zero_bit (k - 1)) i)
        = (List.range nd).map (fun i => bulkXentry V k i) := by
      refine List.map_congr_left ?_
      intro i hi
      rw [rangeMap_getD nd i _ 0 (List.mem_range.mp hi)]
      conv_rhs => rw [show k = (k - 1) + 1 from by omega]
      rfl
    simp only [Prod.mk.injEq]
    constructor
    · rw [hY2, List.map_map]
      rfl
    · rw [hY2]
      simp only [Nat.add_sub_cancel]

theorem runNext_stAfter (g : SobolSample) : ∀ (k j : Nat),
    j + k ≤ g.n_samples →
    runNext k (stAfter g j)
      = ((List.range' j k).map (fun t => Except.ok (sobolRow g t)),
          stAfter g (j + k)) := by
  intro k
  induction k with
  | zero => intro j h; simp [runNext]
  | succ k ih =>
    intro j h
    rw [List.range'_succ]
    simp only [runNext]
    rw [nextState_stAfter g j (by omega)]
    simp only []
    rw [ih (j + 1) (by omega)]
    simp only [List.map_cons]
    rw [show j + 1 + k = j + (k + 1) from by omega]

theorem mkSobol_ok (table : List (List Nat)) (n d scale : Nat)
    (g : SobolSample) (h : mkSobol table n d scale = .ok g) :
    d ≤ table.length + 1 ∧ ceilLog2 n ≤ scale ∧
    g = { n_samples := n, n_dimensions := d, scale := scale, L := ceilLog2 n,
          current := 0, Y := List.replicate d 0,
          V := generate_V table d scale (ceilLog2 n) } := by
  simp only [mkSobol] at h
  split at h
  · exact absurd h (by simp)
  · split at h
    · exact absurd h (by simp)
    · exact ⟨by omega, by omega, (Except.ok.inj h).symm⟩

theorem runNext_ok_outputs (g : SobolSample) (hc : g.current = 0)
    (hY : g.Y = List.replicate g.n_dimensions 0) (k : Nat) :
    (runNext k g).1
      = (List.range (min k g.n_samples)).map (fun t => Except.ok (sobolRow g t))
        ++ List.replicate (k - g.n_samples) (Except.error ())
    ∧ (runNext k g).2 = stAfter g (min k g.n_samples) := by
  rcases le_or_lt k g.n_samples with h | h
  · have h0 : runNext k g = runNext k (stAfter g 0) := by rw [stAfter_zero g hc hY]
    rw [h0, runNext_stAfter g k 0 (by omega)]
    constructor
    · show (List.range' 0 k).map _ = _
      rw [← List.range_eq_range', Nat.min_eq_left h, Nat.sub_eq_zero_of_le h]
      simp
    · show stAfter g (0 + k) = stAfter g (min k g.n_samples)
      rw [Nat.zero_add, Nat.min_eq_left h]
  · obtain ⟨m, rfl⟩ : ∃ m, k = g.n_samples + m := ⟨k - g.n_samples, by omega⟩
    rw [runNext_add]
    have h0 : runNext g.n_samples g = runNext g.n_samples (stAfter g 0) := by
      rw [stAfter_zero g hc hY]
    rw [h0, runNext_stAfter g g.n_samples 0 (by omega)]
    have hguard : (((stAfter g (0 + g.n_samples)).current : Int))
        > ((stAfter g (0 + g.n_samples)).n_samples : Int) - 1 := by
      simp only [stAfter]
      omega
    rw [runNext_exhausted _ hguard]
    constructor
    · show (List.range' 0 g.n_samples).map _ ++ List.replicate _ _ = _
      rw [← List.range_eq_range', Nat.min_eq_right (Nat.le_add_right _ _),
        Nat.add_sub_cancel_left]
    · show stAfter g (0 + g.n_samples) = stAfter g (min (g.n_samples + m) g.n_samples)
      rw [Nat.zero_add, Nat.min_eq_right (Nat.le_add_right _ _)]

/-- C1: for every valid configuration (n_samples >= 1, n_dimensions >= 1,
construction succeeded), the n_samples outputs of the sequential producer
(__next__ called n_samples times on a fresh instance) are, coordinate for
coordinate, exactly the rows of the matrix generate_all_samples returns. -/
theorem spec_C1 (table : List (List Nat)) (n d scale : Nat) (g : SobolSample)
    (hn : 1 ≤ n) (hd : 1 ≤ d) (hok : mkSobol table n d scale = .ok g) :
    (runNext n g).1 = (generate_all_samples g).1.map Except.ok := by
  obtain ⟨hdim, hbits, hg⟩ := mkSobol_ok table n d scale g hok
  have hc : g.current = 0 := by rw [hg]
  have hY : g.Y = List.replicate g.n_dimensions 0 := by rw [hg]
  have hns : g.n_samples = n := by rw [hg]
  have hrun := (runNext_ok_outputs g hc hY n).1
  rw [hns, Nat.min_self, Nat.sub_self] at hrun
  rw [hrun]
  simp only [generate_all_samples, List.map_map, hns]
  simp [Function.comp]

/-- Witness for C1 at the concrete generator SobolSample(4, 1, scale=31). -/
theorem spec_C1_witness :
    (runNext 4 sobolG4).1 = (generate_all_samples sobolG4).1.map Except.ok :=
  spec_C1 [] 4 1 31 sobolG4 (by norm_num) (by norm_num) rfl

/-- C6: on a fresh successfully constructed generator, each of the first
n_samples advance calls returns a sample, and every advance on a state with
current > n_samples - 1 fails with the exhaustion signal and yields no
value. -/
theorem spec_C6 (table : List (List Nat)) (n d scale : Nat) (g : SobolSample)
    (hok : mkSobol table n d scale = .ok g) :
    (∀ k, k < g.n_samples →
        ∃ r, (runNext g.n_samples g).1.getD k (Except.error ()) = Except.ok r) ∧
    (∀ st : SobolSample, (st.current : Int) > (st.n_samples : Int) - 1 →
        (nextState st).1 = Except.error ()) := by
  obtain ⟨hdim, hbits, hg⟩ := mkSobol_ok table n d scale g hok
  have hc : g.current = 0 := by rw [hg]
  have hY : g.Y = List.replicate g.n_dimensions 0 := by rw [hg]
  constructor
  · intro k hk
    have hrun := (runNext_ok_outputs g hc hY g.n_samples).1
    rw [Nat.min_self, Nat.sub_self] at hrun
    rw [hrun]
    simp only [List.replicate_zero, List.append_nil]
    rw [rangeMap_getD _ k _ _ hk]
    exact ⟨_, rfl⟩
  · intro st h
    rw [nextState_exhausted st h]


/-- Witness for C6 at the concrete generator SobolSample(4, 1, scale=31). -/
theorem spec_C6_witness :
    ∃ r, (runNext sobolG4.n_samples sobolG4).1.getD 0 (Except.error ())
      = Except.ok r :=
  (spec_C6 [] 4 1 31 sobolG4 rfl).1 0 (by norm_num [sobolG4])

/-- C8: generate_all_samples reads n_samples, n_dimensions and V but assigns
no attribute, so every field of the generator state (in particular Y,
current and V) is unchanged by the call, on every state. -/
theorem spec_C8 (st : SobolSample) :
    (generate_all_samples st).2 = st
      ∧ (generate_all_samples st).2.Y = st.Y
      ∧ (generate_all_samples st).2.current = st.current
      ∧ (generate_all_samples st).2.V = st.V
      ∧ (generate_all_samples st).2.n_samples = st.n_samples
      ∧ (generate_all_samples st).2.n_dimensions = st.n_dimensions
      ∧ (generate_all_samples st).2.scale = st.scale :=
  ⟨rfl, rfl, rfl, rfl, rfl, rfl, rfl⟩

/-- C9: an advance call that fails with the exhaustion signal (current >
n_samples - 1) raises before any assignment, so it returns no sample and
leaves the whole state, in particular Y, current and V, unchanged. -/
theorem spec_C9 (st : SobolSample)
    (h : (st.current : Int) > (st.n_samples : Int) - 1) :
    (nextState st).1 = Except.error () ∧ (nextState st).2 = st
      ∧ (nextState st).2.Y = st.Y ∧ (nextState st).2.current = st.current
      ∧ (nextState st).2.V = st.V := by
  rw [nextState_exhausted st h]
  exact ⟨rfl, rfl, rfl, rfl, rfl⟩

/-- Witness for C9 at the concrete exhausted state of SobolSample(4, 1). -/
theorem spec_C9_witness :
    (nextState { sobolG4 with current := 4 }).1 = Except.error ()
      ∧ (nextState { sobolG4 with current := 4 }).2
        = { sobolG4 with current := 4 } := by
  have h := spec_C9 { sobolG4 with current := 4 } (by norm_num [sobolG4])
  exact ⟨h.1, h.2.1⟩

/-- C4: for every non-negative integer v, the returned index k is 1-based
and satisfies "bits 0..k-2 of v are all 1, bit k-1 of v is 0"; in
particular the function maps 0, 1, 3, 7 to 1, 2, 3, 4. -/
theorem spec_C4 (v : Nat) :
    1 ≤ index_of_least_significant_zero_bit v
      ∧ (∀ i, i < index_of_least_significant_zero_bit v - 1 → v.testBit i = true)
      ∧ v.testBit (index_of_least_significant_zero_bit v - 1) = false
      ∧ index_of_least_significant_zero_bit 0 = 1
      ∧ index_of_least_significant_zero_bit 1 = 2
      ∧ index_of_least_significant_zero_bit 3 = 3
      ∧ index_of_least_significant_zero_bit 7 = 4 := by
  have hlt : v < 2 ^ (v + 1) :=
    lt_of_lt_of_le (Nat.lt_two_pow v)
      (Nat.pow_le_pow_right (by norm_num) (Nat.le_succ v))
  have h := lszbGo_spec (v + 1) v 1 hlt
  have hle := lszbGo_index_le (v + 1) v 1
  unfold index_of_least_significant_zero_bit
  exact ⟨hle, h.1, h.2, by decide, by decide, by decide, by decide⟩

/-- Witness for C4 at v = 5 (binary 101, least significant zero bit at
1-based index 2). -/
theorem spec_C4_witness : Nat.testBit 5 0 = true ∧ Nat.testBit 5 1 = false :=
  ⟨(spec_C4 5).2.1 0 (by decide), (spec_C4 5).2.2.1⟩

/-- C5 counterexample: with an empty table, n_samples = 2, n_dimensions = 3
and scale = 0 the bits condition ceil(log2(n_samples)) > scale holds, yet
construction fails with InsufficientDimensions (the dimension check runs
first), so "fails with InsufficientBits exactly when ceil(log2(n_samples))
> scale" is false as a biconditional. -/
theorem spec_C5_counterexample :
    (0 : Nat) < ceilLog2 2
      ∧ mkSobol [] 2 3 0 = .error .InsufficientDimensions
      ∧ ¬(mkSobol [] 2 3 0 = .error .InsufficientBits) := by
  refine ⟨by decide, rfl, ?_⟩
  intro h
  rw [show mkSobol [] 2 3 0 = .error .InsufficientDimensions from rfl] at h
  simp at h

/-- C5 amended: construction fails with InsufficientDimensions exactly when
n_dimensions - 1 exceeds the table's entry count; it fails with
InsufficientBits exactly when the dimension check passes and
ceil(log2(n_samples)) > scale; otherwise (and only then) construction
succeeds, and in the failure cases no generator is produced. -/
theorem spec_C5 (table : List (List Nat)) (n d scale : Nat) (hn : 1 ≤ n) :
    (mkSobol table n d scale = .error .InsufficientDimensions
        ↔ table.length < d - 1)
      ∧ (mkSobol table n d scale = .error .InsufficientBits
          ↔ (d - 1 ≤ table.length ∧ scale < ceilLog2 n))
      ∧ ((∃ g, mkSobol table n d scale = .ok g)
          ↔ (d - 1 ≤ table.length ∧ ceilLog2 n ≤ scale)) := by
  simp only [mkSobol]
  by_cases h1 : d > table.length + 1
  · rw [if_pos h1]
    refine ⟨⟨fun _ => by omega, fun _ => rfl⟩, ?_, ?_⟩
    · constructor
      · intro h
        simp at h
      · intro h
        exact absurd h.1 (by omega)
    · constructor
      · intro h
        obtain ⟨g, hg⟩ := h
        simp at hg
      · intro h
        exact absurd h.1 (by omega)
  · rw [if_neg h1]
    by_cases h2 : ceilLog2 n > scale
    · rw [if_pos h2]
      refine ⟨⟨fun h => by simp at h, fun hlt => absurd hlt (by omega)⟩, ?_, ?_⟩
      · exact ⟨fun _ => ⟨by omega, by omega⟩, fun _ => rfl⟩
      · constructor
        · intro h
          obtain ⟨g, hg⟩ := h
          simp at hg
        · intro h
          exact absurd h.2 (by omega)
    · rw [if_neg h2]
      refine ⟨⟨fun h => by simp at h, fun hlt => absurd hlt (by omega)⟩, ?_, ?_⟩
      · exact ⟨fun h => by simp at h, fun h => absurd h.2 (by omega)⟩
      · exact ⟨fun _ => ⟨by omega, by omega⟩, fun _ => ⟨_, rfl⟩⟩

/-- Witness for C5 at a succeeding and a failing concrete configuration. -/
theorem spec_C5_witness :
    (∃ g, mkSobol [] 4 1 31 = .ok g)
      ∧ (mkSobol [] 4 2 31 = .error .InsufficientDimensions) :=
  ⟨(spec_C5 [] 4 1 31 (by norm_num)).2.2.mpr ⟨by decide, by decide⟩,
    (spec_C5 [] 4 2 31 (by norm_num)).1.mpr (by decide)⟩

/-- C10 counterexample: the while loop of
index_of_least_significant_zero_bit terminates immediately on the negative
argument -2 (its low bit is 0), so the loop does not diverge on every
negative argument. -/
theorem spec_C10_counterexample :
    (-2 : Int) < 0 ∧ lszbLoop 1 (-2) 1 = some 1 :=
  ⟨by norm_num, by decide⟩

/-- C10 amended: the loop of index_of_least_significant_zero_bit diverges
on the argument -1 (every fuel bound is exhausted) and terminates on every
non-negative argument; generate_sample called directly on a fresh generator
(current = 0) hands the loop exactly -1 and therefore diverges, while on
every state with current >= 1 (the only states __next__ calls it from) it
terminates and agrees with the total embedding generate_sample. -/
theorem spec_C10 :
    (∀ fuel index, lszbLoop fuel (-1) index = none)
      ∧ (∀ v : Int, 0 ≤ v → ∀ index, ∃ fuel k, lszbLoop fuel v index = some k)
      ∧ (∀ st : SobolSample, st.current = 0 →
          ((st.current : Int) - 1 = -1 ∧ ∀ fuel, generate_sampleF fuel st = none))
      ∧ (∀ st : SobolSample, 1 ≤ st.current →
          generate_sampleF (st.current - 1 + 2) st = some (generate_sample st)) :=
  ⟨lszbLoop_neg_one, lszbLoop_total,
    fun st h => ⟨by rw [h]; norm_num, fun fuel => generate_sampleF_fresh fuel st h⟩,
    generate_sampleF_agree⟩

/-- Witness for C10: divergence at -1 for a concrete fuel, termination on
the non-negative input 2, and divergence of generate_sample on the concrete
fresh generator SobolSample(4, 1, scale=31). -/
theorem spec_C10_witness :
    lszbLoop 3 (-1) 1 = none
      ∧ (∃ fuel k, lszbLoop fuel 2 1 = some k)
      ∧ generate_sampleF 5 sobolG4 = none :=
  ⟨spec_C10.1 3 1, spec_C10.2.1 2 (by norm_num) 1,
    (spec_C10.2.2.1 sobolG4 rfl).2 5⟩

-- Boundedness of the direction numbers and accumulators (for C7).

theorem VcolRows_succ (m : List Nat) (scale j : Nat) :
    VcolRows m scale (j + 1)
      = VcolRows m scale j ++
        [if j + 1 ≤ m.length - 1 then m.getD (j + 1) 0 <<< (scale - (j + 1))
         else
           (List.range (m.length - 1)).foldl
             (fun acc k =>
               if k = 0 then acc
               else acc ^^^ ((m.getD 0 0 >>> (m.length - 1 - 1 - k)) &&& 1)
                 * (VcolRows m scale j).getD (j + 1 - k) 0)
             ((VcolRows m scale j).getD (j + 1 - (m.length - 1)) 0
               ^^^ ((VcolRows m scale j).getD (j + 1 - (m.length - 1)) 0
                    >>> (m.length - 1)))] := rfl

theorem VcolRows_length (m : List Nat) (scale : Nat) :
    ∀ top, (VcolRows m scale top).length = top + 1 := by
  intro top
  induction top with
  | zero => rfl
  | succ j ih => rw [VcolRows_succ, List.length_append, ih]; rfl

theorem sobolCol_eq (m : List Nat) (scale L : Nat) :
    sobolCol m scale L
      = if L ≤ m.length - 1 then
          (List.range (L + 1)).map
            (fun j => if j = 0 then 0 else m.getD j 0 <<< (scale - j))
        else VcolRows m scale L := rfl

theorem seedShift_lt (m : List Nat) (scale j : Nat)
    (hm : ∀ j, 1 ≤ j → m.getD j 0 < 2 ^ j) (hj : 1 ≤ j) (hjs : j ≤ scale) :
    m.getD j 0 <<< (scale - j) < 2 ^ scale := by
  rw [Nat.shiftLeft_eq]
  calc m.getD j 0 * 2 ^ (scale - j)
      < 2 ^ j * 2 ^ (scale - j) :=
        Nat.mul_lt_mul_of_pos_right (hm j hj) (Nat.two_pow_pos _)
    _ = 2 ^ scale := by rw [← pow_add]; congr 1; omega

theorem xorFoldl_lt (scale : Nat) (g : Nat → Nat) (l : List Nat) :
    ∀ init, init < 2 ^ scale → (∀ k ∈ l, g k < 2 ^ scale) →
    l.foldl (fun acc k => if k = 0 then acc else acc ^^^ g k) init
      < 2 ^ scale := by
  induction l with
  | nil => intro init h _; simpa using h
  | cons x xs ih =>
    intro init h hg
    simp only [List.foldl_cons]
    by_cases hx : x = 0
    · rw [if_pos hx]
      exact ih init h (fun k hk => hg k (List.mem_cons_of_mem _ hk))
    · rw [if_neg hx]
      exact ih _ (Nat.xor_lt_two_pow h (hg x (List.mem_cons_self x xs)))
        (fun k hk => hg k (List.mem_cons_of_mem _ hk))

theorem VcolRows_lt (m : List Nat) (scale : Nat)
    (hm : ∀ j, 1 ≤ j → m.getD j 0 < 2 ^ j) :
    ∀ top, top ≤ scale → ∀ r, (VcolRows m scale top).getD r 0 < 2 ^ scale := by
  intro top
  induction top with
  | zero =>
    intro _ r
    cases r with
    | zero => exact Nat.two_pow_pos scale
    | succ r => exact Nat.two_pow_pos scale
  | succ j ih =>
    intro htop r
    have ihall := ih (by omega)
    rw [VcolRows_succ]
    by_cases hr : r < (VcolRows m scale j).length
    · rw [List.getD_append _ _ _ _ hr]
      exact ihall r
    · by_cases hr2 : r = (VcolRows m scale j).length
      · rw [hr2, List.getD_append_right _ _ _ _ (le_refl _), Nat.sub_self,
          List.getD_cons_zero]
        by_cases hseed : j + 1 ≤ m.length - 1
        · rw [if_pos hseed]
          exact seedShift_lt m scale (j + 1) hm (by omega) (by omega)
        · rw [if_neg hseed]
          apply xorFoldl_lt
          · refine Nat.xor_lt_two_pow (ihall _) ?_
            calc (VcolRows m scale j).getD (j + 1 - (m.length - 1)) 0
                  >>> (m.length - 1)
                ≤ (VcolRows m scale j).getD (j + 1 - (m.length - 1)) 0 := by
                  rw [Nat.shiftRight_eq_div_pow]
                  exact Nat.div_le_self _ _
              _ < 2 ^ scale := ihall _
          · intro k _
            calc ((m.getD 0 0 >>> (m.length - 1 - 1 - k)) &&& 1)
                  * (VcolRows m scale j).getD (j + 1 - k) 0
                ≤ 1 * (VcolRows m scale j).getD (j + 1 - k) 0 :=
                  Nat.mul_le_mul_right _ Nat.and_le_right
              _ = (VcolRows m scale j).getD (j + 1 - k) 0 := Nat.one_mul _
              _ < 2 ^ scale := ihall _
      · rw [List.getD_eq_default]
        · exact Nat.two_pow_pos scale
        · rw [List.length_append]
          simp only [List.length_cons, List.length_nil]
          omega

theorem Vcol0_lt (scale L : Nat) (hL : L ≤ scale) (j : Nat) :
    (Vcol0 scale L).getD j 0 < 2 ^ scale := by
  by_cases hj : j < L + 1
  · rw [Vcol0, rangeMap_getD _ j _ _ hj]
    by_cases hj0 : j = 0
    · rw [if_pos hj0]
      exact Nat.two_pow_pos scale
    · rw [if_neg hj0, Nat.one_shiftLeft]
      exact Nat.pow_lt_pow_right (by norm_num) (by omega)
  · rw [Vcol0, List.getD_eq_default]
    · exact Nat.two_pow_pos scale
    · rw [List.length_map, List.length_range]
      omega

theorem sobolCol_lt (m : List Nat) (scale L : Nat)
    (hm : ∀ j, 1 ≤ j → m.getD j 0 < 2 ^ j) (hL : L ≤ scale) (r : Nat) :
    (sobolCol m scale L).getD r 0 < 2 ^ scale := by
  rw [sobolCol_eq]
  by_cases hb : L ≤ m.length - 1
  · rw [if_pos hb]
    by_cases hr : r < L + 1
    · rw [rangeMap_getD _ r _ _ hr]
      by_cases hr0 : r = 0
      · rw [if_pos hr0]
        exact Nat.two_pow_pos scale
      · rw [if_neg hr0]
        exact seedShift_lt m scale r hm (by omega) (by omega)
    · rw [List.getD_eq_default]
      · exact Nat.two_pow_pos scale
      · rw [List.length_map, List.length_range]
        omega
  · rw [if_neg hb]
    exact VcolRows_lt m scale hm L hL r

theorem Vget_lt (table : List (List Nat)) (d scale L : Nat)
    (htab : TableWF table) (hL : L ≤ scale) (j i : Nat) :
    Vget (generate_V table d scale L) j i < 2 ^ scale := by
  unfold Vget generate_V
  cases i with
  | zero =>
    rw [List.getD_cons_zero]
    exact Vcol0_lt scale L hL j
  | succ i =>
    rw [List.getD_cons_succ]
    by_cases hi : i < d - 1
    · rw [rangeMap_getD _ i _ _ hi]
      refine sobolCol_lt _ scale L ?_ hL j
      by_cases hit : i < table.length
      · intro j' hj'
        refine htab (table.getD i []) ?_ j' hj'
        rw [List.getD_eq_getElem _ _ hit]
        exact List.getElem_mem hit
      · intro j' hj'
        rw [show table.getD i [] = [] from List.getD_eq_default _ _ (by omega)]
        exact Nat.two_pow_pos j'
    · rw [show (List.map (fun i => sobolCol (table.getD i []) scale L)
            (List.range (d - 1))).getD i [] = [] from
          List.getD_eq_default _ _
            (by rw [List.length_map, List.length_range]; omega)]
      exact Nat.two_pow_pos scale

theorem bulkXentry_lt (V : List (List Nat)) (scale : Nat)
    (hV : ∀ j i, Vget V j i < 2 ^ scale) :
    ∀ j i, bulkXentry V j i < 2 ^ scale := by
  intro j
  induction j with
  | zero => intro i; exact Nat.two_pow_pos scale
  | succ j ih => intro i; exact Nat.xor_lt_two_pow (ih i) (hV _ i)

theorem ratio_mem_Ico (y scale : Nat) (h : y < 2 ^ scale) :
    0 ≤ (y : ℚ) / 2 ^ scale ∧ (y : ℚ) / 2 ^ scale < 1 := by
  constructor
  · positivity
  · rw [div_lt_one (by positivity)]
    exact_mod_cast h

/-- C7: on every successfully constructed generator over a well-formed
direction-number table, every coordinate of every sample emitted by the
sequential producer (over any number of advance calls) and every entry of
the bulk matrix lies in the interval from 0 inclusive to 1 exclusive; the
integer accumulators stay below 2^scale throughout. -/
theorem spec_C7 (table : List (List Nat)) (n d scale : Nat) (g : SobolSample)
    (htab : TableWF table) (hok : mkSobol table n d scale = .ok g) :
    (∀ (k : Nat) (r : List ℚ) (q : ℚ), Except.ok r ∈ (runNext k g).1 →
        q ∈ r → 0 ≤ q ∧ q < 1)
      ∧ (∀ (row : List ℚ) (q : ℚ), row ∈ (generate_all_samples g).1 →
          q ∈ row → 0 ≤ q ∧ q < 1)
      ∧ (∀ j i, bulkXentry g.V j i < 2 ^ g.scale) := by
  obtain ⟨hdim, hbits, hg⟩ := mkSobol_ok table n d scale g hok
  have hV : ∀ j i, Vget g.V j i < 2 ^ g.scale := by
    rw [hg]
    exact fun j i => Vget_lt table d scale (ceilLog2 n) htab hbits j i
  have hbulk : ∀ j i, bulkXentry g.V j i < 2 ^ g.scale :=
    bulkXentry_lt g.V g.scale hV
  have hrow : ∀ t (q : ℚ), q ∈ sobolRow g t → 0 ≤ q ∧ q < 1 := by
    intro t q hq
    unfold sobolRow at hq
    obtain ⟨i, _, rfl⟩ := List.mem_map.mp hq
    exact ratio_mem_Ico _ _ (hbulk t i)
  refine ⟨?_, ?_, hbulk⟩
  · intro k r q hr hq
    have hc : g.current = 0 := by rw [hg]
    have hY : g.Y = List.replicate g.n_dimensions 0 := by rw [hg]
    have hrun := (runNext_ok_outputs g hc hY k).1
    rw [hrun] at hr
    rcases List.mem_append.mp hr with h | h
    · obtain ⟨t, _, ht⟩ := List.mem_map.mp h
      have heq : sobolRow g t = r := Except.ok.inj ht
      rw [← heq] at hq
      exact hrow t q hq
    · have := List.eq_of_mem_replicate h
      simp at this
  · intro row q hrow2 hq
    unfold generate_all_samples at hrow2
    obtain ⟨t, _, rfl⟩ := List.mem_map.mp hrow2
    exact hrow t q hq

/-- Witness for C7: the second bulk coordinate of SobolSample(4, 1,
scale=31) lies in the unit interval. -/
theorem spec_C7_witness :
    0 ≤ ((bulkXentry sobolG4.V 1 0 : ℚ) / 2 ^ sobolG4.scale)
      ∧ ((bulkXentry sobolG4.V 1 0 : ℚ) / 2 ^ sobolG4.scale) < 1 :=
  (spec_C7 [] 4 1 31 sobolG4 (fun m hm => absurd hm (List.not_mem_nil m)) rfl).2.1
    (sobolRow sobolG4 1) _ (List.mem_map_of_mem _ (by decide))
    (List.mem_map_of_mem _ (by decide))

-- Characterization of the direction-number matrix (for C3).

theorem sobolCol_length (m : List Nat) (scale L : Nat) :
    (sobolCol m scale L).length = L + 1 := by
  rw [sobolCol_eq]
  split
  · rw [List.length_map, List.length_range]
  · exact VcolRows_length m scale L

theorem VcolRows_getD_stable (m : List Nat) (scale : Nat) :
    ∀ (t u r : Nat), r ≤ u → u ≤ t →
    (VcolRows m scale t).getD r 0 = (VcolRows m scale u).getD r 0 := by
  intro t
  induction t with
  | zero =>
    intro u r _ hu
    rw [Nat.le_zero.mp hu]
  | succ t ih =>
    intro u r hr hu
    by_cases hut : u = t + 1
    · rw [hut]
    · have hu' : u ≤ t := by omega
      rw [VcolRows_succ, List.getD_append _ _ _ _ (by rw [VcolRows_length]; omega)]
      exact ih u r hr hu'

theorem VcolRows_getD_last (m : List Nat) (scale j : Nat) :
    (VcolRows m scale (j + 1)).getD (j + 1) 0
      = if j + 1 ≤ m.length - 1 then m.getD (j + 1) 0 <<< (scale - (j + 1))
        else
          (List.range (m.length - 1)).foldl
            (fun acc k =>
              if k = 0 then acc
              else acc ^^^ ((m.getD 0 0 >>> (m.length - 1 - 1 - k)) &&& 1)
                * (VcolRows m scale j).getD (j + 1 - k) 0)
            ((VcolRows m scale j).getD (j + 1 - (m.length - 1)) 0
              ^^^ ((VcolRows m scale j).getD (j + 1 - (m.length - 1)) 0
                >>> (m.length - 1))) := by
  rw [VcolRows_succ,
    List.getD_append_right _ _ _ _ (by rw [VcolRows_length]),
    VcolRows_length, Nat.sub_self, List.getD_cons_zero]

theorem Vget_succ_col (table : List (List Nat)) (d scale L i : Nat)
    (hi : i < d - 1) (j : Nat) :
    Vget (generate_V table d scale L) j (i + 1)
      = (sobolCol (table.getD i []) scale L).getD j 0 := by
  unfold Vget generate_V
  rw [List.getD_cons_succ, rangeMap_getD _ i _ _ hi]

/-- C3: generate_V has n_dimensions columns of L+1 rows each, row 0 is
zero, column 0 holds V[j,0] = 2^(scale-j) for j = 1..L, and every column
i >= 1 with table entry m and degree s = len(m)-1 is the seed column when
L <= s, and otherwise is seeded on rows 1..s and follows the two-term
primitive-polynomial XOR recurrence on rows s+1..L. -/
theorem spec_C3 (table : List (List Nat)) (d scale L : Nat)
    (hd : 1 ≤ d) (hdim : d ≤ table.length + 1) (hL : L ≤ scale) :
    ((generate_V table d scale L).length = d
        ∧ ∀ c ∈ generate_V table d scale L, c.length = L + 1)
      ∧ (∀ i, i < d → Vget (generate_V table d scale L) 0 i = 0)
      ∧ (∀ j, 1 ≤ j → j ≤ L →
          Vget (generate_V table d scale L) j 0 = 2 ^ (scale - j))
      ∧ (∀ i m s, 1 ≤ i → i < d → m = table.getD (i - 1) [] →
          s = m.length - 1 → 1 ≤ s →
          ((L ≤ s → ∀ j, 1 ≤ j → j ≤ L →
              Vget (generate_V table d scale L) j i
                = m.getD j 0 <<< (scale - j))
            ∧ (s < L →
                (∀ j, 1 ≤ j → j ≤ s →
                  Vget (generate_V table d scale L) j i
                    = m.getD j 0 <<< (scale - j))
                ∧ (∀ j, s < j → j ≤ L →
                    Vget (generate_V table d scale L) j i
                      = (List.range s).foldl
                          (fun acc k =>
                            if k = 0 then acc
                            else acc ^^^ ((m.getD 0 0 >>> (s - 1 - k)) &&& 1)
                              * Vget (generate_V table d scale L) (j - k) i)
                          (Vget (generate_V table d scale L) (j - s) i
                            ^^^ (Vget (generate_V table d scale L) (j - s) i
                              >>> s)))))) := by
  constructor
  · constructor
    · show (Vcol0 scale L :: _).length = d
      rw [List.length_cons, List.length_map, List.length_range]
      omega
    · intro c hc
      rcases List.mem_cons.mp hc with rfl | hmem
      · rw [Vcol0, List.length_map, List.length_range]
      · obtain ⟨i, _, rfl⟩ := List.mem_map.mp hmem
        exact sobolCol_length _ _ _
  constructor
  · intro i hi
    cases i with
    | zero =>
      show ((Vcol0 scale L :: _).getD 0 []).getD 0 0 = 0
      rw [List.getD_cons_zero, Vcol0, rangeMap_getD _ 0 _ _ (by omega),
        if_pos rfl]
    | succ i' =>
      rw [Vget_succ_col table d scale L i' (by omega) 0, sobolCol_eq]
      split
      · rw [rangeMap_getD _ 0 _ _ (by omega), if_pos rfl]
      · rw [VcolRows_getD_stable _ _ L 0 0 (le_refl 0) (Nat.zero_le L)]
        rfl
  constructor
  · intro j hj1 hjL
    show ((Vcol0 scale L :: _).getD 0 []).getD j 0 = _
    rw [List.getD_cons_zero, Vcol0, rangeMap_getD _ j _ _ (by omega),
      if_neg (by omega), Nat.one_shiftLeft]
  · intro i m s hi1 hid hm hs hs1
    obtain ⟨i', rfl⟩ : ∃ i', i = i' + 1 := ⟨i - 1, by omega⟩
    rw [Nat.add_sub_cancel] at hm
    subst hm
    subst hs
    have hi' : i' < d - 1 := by omega
    have hVcol : ∀ j, Vget (generate_V table d scale L) j (i' + 1)
        = (sobolCol (table.getD i' []) scale L).getD j 0 :=
      fun j => Vget_succ_col table d scale L i' hi' j
    constructor
    · intro hLs j hj1 hjL
      rw [hVcol j, sobolCol_eq, if_pos hLs, rangeMap_getD _ j _ _ (by omega),
        if_neg (by omega)]
    · intro hsL
      have hcolR : ∀ j, Vget (generate_V table d scale L) j (i' + 1)
          = (VcolRows (table.getD i' []) scale L).getD j 0 := by
        intro j
        rw [hVcol j, sobolCol_eq, if_neg (by omega)]
      have hprev : ∀ top r, r ≤ top → top ≤ L →
          (VcolRows (table.getD i' []) scale top).getD r 0
            = Vget (generate_V table d scale L) r (i' + 1) := by
        intro top r hr htop
        rw [hcolR r, VcolRows_getD_stable _ _ L top r hr htop]
      constructor
      · intro j hj1 hjs
        obtain ⟨j', rfl⟩ : ∃ j', j = j' + 1 := ⟨j - 1, by omega⟩
        rw [hcolR (j' + 1),
          VcolRows_getD_stable _ _ L (j' + 1) (j' + 1) (le_refl _) (by omega),
          VcolRows_getD_last, if_pos (by omega)]
      · intro j hjs hjL
        obtain ⟨j', rfl⟩ : ∃ j', j = j' + 1 := ⟨j - 1, by omega⟩
        rw [hcolR (j' + 1),
          VcolRows_getD_stable _ _ L (j' + 1) (j' + 1) (le_refl _) (by omega),
          VcolRows_getD_last, if_neg (by omega),
          hprev j' (j' + 1 - ((table.getD i' []).length - 1)) (by omega) (by omega)]
        apply List.foldl_ext
        intro acc k hk
        by_cases hk0 : k = 0
        · rw [if_pos hk0, if_pos hk0]
        · rw [if_neg hk0, if_neg hk0,
            hprev j' (j' + 1 - k) (by omega) (by omega)]

/-- Witness for C3 on the concrete table [[1, 1]] (degree s = 1), two
dimensions, scale 3, L = 2: the van der Corput entry of column 0 and the
recurrence row j = 2 of column 1. -/
theorem spec_C3_witness :
    Vget (generate_V [[1, 1]] 2 3 2) 1 0 = 2 ^ (3 - 1)
      ∧ Vget (generate_V [[1, 1]] 2 3 2) 2 1
        = (List.range 1).foldl
            (fun acc k =>
              if k = 0 then acc
              else acc ^^^ ((([1, 1] : List Nat).getD 0 0 >>> (1 - 1 - k)) &&& 1)
                * Vget (generate_V [[1, 1]] 2 3 2) (2 - k) 1)
            (Vget (generate_V [[1, 1]] 2 3 2) (2 - 1) 1
              ^^^ (Vget (generate_V [[1, 1]] 2 3 2) (2 - 1) 1 >>> 1)) :=
  ⟨(spec_C3 [[1, 1]] 2 3 2 (by norm_num) (by norm_num) (by norm_num)).2.2.1 1
      (by norm_num) (by norm_num),
    (((spec_C3 [[1, 1]] 2 3 2 (by norm_num) (by norm_num)
        (by norm_num)).2.2.2 1 [1, 1] 1 (by norm_num) (by norm_num) rfl rfl
        (by norm_num)).2 (by norm_num)).2 2 (by norm_num) (by norm_num)⟩

-- Concrete first samples of dimension 0 (for C2).

theorem range_take (n m : Nat) (h : m ≤ n) :
    (List.range n).take m = List.range m := by
  obtain ⟨k, rfl⟩ : ∃ k, n = m + k := ⟨n - m, by omega⟩
  rw [List.range_add]
  exact List.take_left' (List.length_range m)

theorem Vget_col0 (table : List (List Nat)) (d scale L j : Nat)
    (hj1 : 1 ≤ j) (hjL : j ≤ L) :
    Vget (generate_V table d scale L) j 0 = 2 ^ (scale - j) := by
  show ((Vcol0 scale L :: _).getD 0 []).getD j 0 = _
  rw [List.getD_cons_zero, Vcol0, rangeMap_getD _ j _ _ (by omega),
    if_neg (by omega), Nat.one_shiftLeft]

theorem sobolG4_first4 :
    (runNext 4 sobolG4).1
      = [Except.ok [0], Except.ok [1/2], Except.ok [3/4], Except.ok [1/4]] := by
  have h1 : (1 <<< 30 : Nat) = 1073741824 := by decide
  have h2 : (1073741824 ^^^ 1 <<< 29 : Nat) = 1610612736 := by decide
  have h3 : (1610612736 ^^^ 1073741824 : Nat) = 536870912 := by decide
  norm_num [runNext, nextState, generate_sample, sobolG4, generate_V, Vget,
    Vcol0, ceilLog2, ceilLog2Go, index_of_least_significant_zero_bit, lszbGo,
    List.range_succ, h1, h2, h3]

/-- C2 counterexample: for the generator SobolSample(4, 1, scale=31) the
sample of index 2 in dimension 0 is 0.75 and the sample of index 3 is 0.25
(Gray-code order), not 0.25 and 0.75 as the claim orders them. -/
theorem spec_C2_counterexample :
    mkSobol [] 4 1 31 = .ok sobolG4
      ∧ (runNext 4 sobolG4).1.getD 2 (Except.error ())
        = Except.ok [(3 : ℚ)/4]
      ∧ (runNext 4 sobolG4).1.getD 3 (Except.error ())
        = Except.ok [(1 : ℚ)/4]
      ∧ ((3 : ℚ)/4 ≠ 1/4) := by
  refine ⟨rfl, ?_, ?_, by norm_num⟩
  · rw [sobolG4_first4]
    rfl
  · rw [sobolG4_first4]
    rfl

/-- C2 amended: for a generator built with scale=31 and n_samples >= 4, the
first four samples of dimension 0, whether produced sequentially or by the
bulk producer, are exactly 0, 0.5, 0.75, 0.25 in that order (the Gray-code
ordering of the van der Corput values). -/
theorem spec_C2 (table : List (List Nat)) (n d : Nat) (g : SobolSample)
    (hn : 4 ≤ n) (hd : 1 ≤ d) (hok : mkSobol table n d 31 = .ok g) :
    (runNext n g).1.take 4 = ((generate_all_samples g).1.take 4).map Except.ok
      ∧ ((generate_all_samples g).1.take 4).map (fun r => r.getD 0 0)
        = [0, 1/2, 3/4, 1/4] := by
  obtain ⟨hdim, hbits, hg⟩ := mkSobol_ok table n d 31 g hok
  have hc : g.current = 0 := by rw [hg]
  have hY : g.Y = List.replicate g.n_dimensions 0 := by rw [hg]
  have hns : g.n_samples = n := by rw [hg]
  have hnd : g.n_dimensions = d := by rw [hg]
  have hsc : g.scale = 31 := by rw [hg]
  have hVg : g.V = generate_V table d 31 (ceilLog2 n) := by rw [hg]
  have hL2 : 2 ≤ ceilLog2 n := by
    by_contra hcon
    have h1 : ceilLog2 n ≤ 1 := by omega
    have h2 := (ceilLog2_le_iff n 1).mp h1
    norm_num at h2
    omega
  have hbulk : (generate_all_samples g).1 = (List.range n).map (sobolRow g) := by
    unfold generate_all_samples
    rw [hns]
  have hrun : (runNext n g).1
      = (List.range n).map (fun t => Except.ok (sobolRow g t)) := by
    have h := (runNext_ok_outputs g hc hY n).1
    rw [hns, Nat.min_self, Nat.sub_self] at h
    rw [h]
    simp
  have hv1 : Vget g.V 1 0 = 2 ^ 30 := by
    rw [hVg, Vget_col0 table d 31 (ceilLog2 n) 1 (by norm_num) (by omega)]
  have hv2 : Vget g.V 2 0 = 2 ^ 29 := by
    rw [hVg, Vget_col0 table d 31 (ceilLog2 n) 2 (by norm_num) (by omega)]
  have hx1 : bulkXentry g.V 1 0 = 1073741824 := by
    show bulkXentry g.V 0 0 ^^^ Vget g.V (index_of_least_significant_zero_bit 0) 0
      = 1073741824
    rw [show index_of_least_significant_zero_bit 0 = 1 from by decide, hv1,
      show bulkXentry g.V 0 0 = 0 from rfl]
    decide
  have hx2 : bulkXentry g.V 2 0 = 1610612736 := by
    show bulkXentry g.V 1 0 ^^^ Vget g.V (index_of_least_significant_zero_bit 1) 0
      = 1610612736
    rw [hx1, show index_of_least_significant_zero_bit 1 = 2 from by decide, hv2]
    decide
  have hx3 : bulkXentry g.V 3 0 = 536870912 := by
    show bulkXentry g.V 2 0 ^^^ Vget g.V (index_of_least_significant_zero_bit 2) 0
      = 536870912
    rw [hx2, show index_of_least_significant_zero_bit 2 = 1 from by decide, hv1]
    decide
  have hrow0 : ∀ t, (sobolRow g t).getD 0 0
      = (bulkXentry g.V t 0 : ℚ) / 2 ^ g.scale := by
    intro t
    unfold sobolRow
    exact rangeMap_getD _ 0 _ _ (by omega)
  constructor
  · rw [hrun, hbulk, ← List.map_take, ← List.map_take, List.map_map]
    rfl
  · rw [hbulk, ← List.map_take, range_take n 4 (by omega), List.map_map]
    rw [show List.range 4 = [0, 1, 2, 3] from rfl]
    simp only [List.map_cons, List.map_nil, Function.comp_apply]
    rw [hrow0 0, hrow0 1, hrow0 2, hrow0 3, hx1, hx2, hx3, hsc,
      show bulkXentry g.V 0 0 = 0 from rfl]
    norm_num

/-- Witness for C2 at the concrete generator SobolSample(4, 1, scale=31). -/
theorem spec_C2_witness :
    (runNext 4 sobolG4).1.take 4
        = ((generate_all_samples sobolG4).1.take 4).map Except.ok
      ∧ ((generate_all_samples sobolG4).1.take 4).map (fun r => r.getD 0 0)
        = [0, 1/2, 3/4, 1/4] :=
  spec_C2 [] 4 1 sobolG4 (by norm_num) (by norm_num) rfl
